import Mathlib

/-!
Verification of the dynamic-protocol subsystem of the n8n gRPC node:
the delimiter-based proto text splitter, the schema-resolution layer with
Google well-known types, metadata normalization, the `google.protobuf.Any`
codec (encode/decode and the recursive request/response tree walkers),
the server-streaming event accumulation, and the ephemeral temp-directory
lifecycle of client construction.

The definitions are shallow embeddings of `src/helpers/protoParser.ts` and
`src/helpers/grpcClient.ts`.  JavaScript strings are modelled over `String`
and `List Char`; external library behaviour (protobufjs message
serialization, the `protobuf.parse` namespace registry, the grpc-js
transport and the filesystem) is modelled by explicit, documented
abstractions next to the functions that call into it.
-/

/-! ## JavaScript string primitives -/

/-- The whitespace characters recognised by the JavaScript regex class `\s`
and by `String.prototype.trim`: ASCII blanks plus NBSP, BOM and the Unicode
line separators.  (Other rare Unicode space code points are not modelled.) -/
def isJsWs (c : Char) : Bool :=
  c = ' ' || c = '\t' || c = '\n' || c = '\r' || c = '\x0b' || c = '\x0c' ||
  c = '\u00A0' || c = '\uFEFF' || c = '\u2028' || c = '\u2029'

/-- The JavaScript `LineTerminator` set used by multiline `^` and `$`. -/
def isLineTerm (c : Char) : Bool :=
  c = '\n' || c = '\r' || c = '\u2028' || c = '\u2029'

/-- Strip `isJsWs` characters from both ends of a character list. -/
def trimChars (s : List Char) : List Char :=
  ((s.dropWhile isJsWs).reverse.dropWhile isJsWs).reverse

/-- JavaScript `String.prototype.trim`. -/
def jsTrim (s : String) : String :=
  ⟨trimChars s.data⟩

/-- JavaScript `String.prototype.toLowerCase`, modelled for ASCII letters. -/
def jsToLower (s : String) : String :=
  ⟨s.data.map Char.toLower⟩

/-! ## Metadata conversion (`createMetadata`, grpcClient.ts lines 187-199) -/

/-- A user-supplied metadata header pair (helpers/types.ts). -/
structure MetadataEntry where
  key : String
  value : String
deriving DecidableEq

/-- `createMetadata`: builds the transmitted metadata from the configured
entries.  Each key and value is trimmed; pairs whose key or value is empty
after trimming are skipped (JS truthiness of the trimmed strings); kept keys
are lowercased.  The grpc-js `Metadata` object is modelled as the ordered
list of `(key, value)` pairs passed to `metadata.add` (grpc-js key-character
validation is not modelled). -/
def createMetadata (entries : List MetadataEntry) : List (String × String) :=
  entries.foldl (fun acc entry =>
    let key := jsTrim entry.key
    let v := jsTrim entry.value
    if key ≠ "" ∧ v ≠ "" then acc ++ [(jsToLower key, v)] else acc) []

/-! ## Proto text splitter (`parseDelimitedProtoContent`, protoParser.ts 114-152)

The boundary-marker pattern is the JavaScript regex
`^\[\[=+\s*([^\]=]+\.proto)\s*=+\]\]\s*$` with flags `gm`, applied via
`String.prototype.matchAll`.  It is modelled character-by-character with the
engine's leftmost, greedy, backtracking semantics: match starts are limited
to line starts (multiline `^`), `$` holds at end of input or before a
LineTerminator, and the only choice points are the split between the
whitespace run and the captured filename and the extent of the trailing
whitespace run. -/

/-- A user-supplied virtual proto file (helpers/types.ts). -/
structure ProtoFile where
  filename : String
  content : String
deriving DecidableEq

/-- Largest index of a LineTerminator character in the list, if any.
Used for the backtracking of the trailing `\s*$` of the marker regex. -/
def lastLineTermPos : List Char → Option Nat
  | [] => none
  | c :: rest =>
    match lastLineTermPos rest with
    | some k => some (k + 1)
    | none => if isLineTerm c then some 0 else none

/-- Match the tail `\s*=+\]\]\s*$` of the marker regex against `s`,
returning the number of characters consumed.  The final `\s*` is greedy but
backtracks until `$` (end of input or a position before a LineTerminator)
holds. -/
def tryTail (s : List Char) : Option Nat :=
  let ws1 := s.takeWhile isJsWs
  let r1 := s.dropWhile isJsWs
  let eqs := r1.takeWhile (fun c => c = '=')
  let r2 := r1.dropWhile (fun c => c = '=')
  if eqs.isEmpty then none
  else
    match r2 with
    | ']' :: ']' :: r3 =>
      let ws2 := r3.takeWhile isJsWs
      let r4 := r3.dropWhile isJsWs
      let base := ws1.length + eqs.length + 2
      if r4.isEmpty then some (base + ws2.length)
      else
        match lastLineTermPos ws2 with
        | some k => some (base + k)
        | none => none
    | _ => none

/-- The characters of the literal `.proto` suffix required of a captured
filename. -/
def protoSuffix : List Char := ['.', 'p', 'r', 'o', 't', 'o']

/-- Try capture lengths `n, n-1, ..., 7` for the group `([^\]=]+\.proto)`
whose candidate text is a prefix of `run` (a maximal run of characters that
are neither `]` nor `=`), followed by the tail pattern on the remainder.
Returns `(characters consumed from the start of run, capture)`. -/
def tryCaptures (run rest : List Char) : Nat → Option (Nat × List Char)
  | 0 => none
  | Nat.succ c =>
    let n := Nat.succ c
    let attempt : Option (Nat × List Char) :=
      if n < 7 then none
      else if List.isSuffixOf protoSuffix (run.take n) then
        match tryTail (run.drop n ++ rest) with
        | some t => some (n + t, run.take n)
        | none => none
      else none
    match attempt with
    | some r => some r
    | none => tryCaptures run rest c

/-- Try whitespace-run lengths `w, w-1, ..., 0` for the `\s*` preceding the
capture group (greedy, with backtracking into the capture, which may itself
contain whitespace).  `wsMax` is the maximal whitespace run after the
leading `=+`, `cls` the maximal `[^\]=]` run after it, `rest` the remainder.
Returns `(characters consumed from the start of wsMax, capture)`. -/
def tryWsSplit (wsMax cls rest : List Char) : Nat → Option (Nat × List Char)
  | 0 =>
    (tryCaptures (wsMax ++ cls) rest (wsMax ++ cls).length).map
      (fun p => (p.1, p.2))
  | Nat.succ w =>
    let attempt := (tryCaptures (wsMax.drop (Nat.succ w) ++ cls) rest
      (wsMax.drop (Nat.succ w) ++ cls).length).map
      (fun p => (Nat.succ w + p.1, p.2))
    match attempt with
    | some r => some r
    | none => tryWsSplit wsMax cls rest w

/-- Match the whole marker regex at the head of `s` (which must already be a
line start).  Returns `(length of match[0], captured filename)`. -/
def matchMarkerAt (s : List Char) : Option (Nat × List Char) :=
  match s with
  | c1 :: c2 :: r1 =>
    if c1 = '[' ∧ c2 = '[' then
      let eqs := r1.takeWhile (fun c => c = '=')
      let r2 := r1.dropWhile (fun c => c = '=')
      if eqs.isEmpty then none
      else
        let wsMax := r2.takeWhile isJsWs
        let r3 := r2.dropWhile isJsWs
        let cls := r3.takeWhile (fun c => ¬(c = ']' ∨ c = '='))
        let rest := r3.dropWhile (fun c => ¬(c = ']' ∨ c = '='))
        match tryWsSplit wsMax cls rest wsMax.length with
        | some (used, cap) => some (2 + eqs.length + used, cap)
        | none => none
    else none
  | _ => none

/-- One marker match as produced by `matchAll`: start index, length of
`match[0]`, and the raw captured filename (group 1, untrimmed). -/
structure MarkerMatch where
  index : Nat
  length : Nat
  filename : String
deriving DecidableEq

/-- Scan for all marker matches, mimicking a global multiline regex: the
next match is the leftmost line-start position at or after the end of the
previous match where the pattern matches.  `fuel` bounds the recursion (one
unit per examined position). -/
def scanMarkers : Nat → List Char → Nat → Bool → List MarkerMatch
  | 0, _, _, _ => []
  | Nat.succ fuel, s, pos, atLineStart =>
    match s with
    | [] => []
    | c :: rest =>
      if atLineStart then
        match matchMarkerAt s with
        | some (len, cap) =>
          let consumed := s.take len
          let nextLineStart :=
            match consumed.getLast? with
            | some ch => isLineTerm ch
            | none => atLineStart
          { index := pos, length := len, filename := ⟨cap⟩ } ::
            scanMarkers fuel (s.drop len) (pos + len) nextLineStart
        | none => scanMarkers fuel rest (pos + 1) (isLineTerm c)
      else scanMarkers fuel rest (pos + 1) (isLineTerm c)

/-- `[...content.matchAll(delimiterRegex)]`: all marker matches in order. -/
def findMarkers (content : String) : List MarkerMatch :=
  scanMarkers (content.data.length + 1) content.data 0 true

/-- JavaScript `content.slice(a, b)` for the in-range indices used by the
splitter. -/
def sliceStr (content : String) (a b : Nat) : String :=
  ⟨(content.data.drop a).take (b - a)⟩

/-- The file-building loop of `parseDelimitedProtoContent` (lines 139-149):
for each marker, the content reaches from the end of the marker to the start
of the next one (or the end of the input); it is trimmed and dropped when
empty; the filename is the trimmed capture. -/
def buildFiles (content : String) : List MarkerMatch → List ProtoFile
  | [] => []
  | m :: rest =>
    let startIndex := m.index + m.length
    let endIndex :=
      match rest with
      | m2 :: _ => m2.index
      | [] => content.data.length
    let fileContent := jsTrim (sliceStr content startIndex endIndex)
    let tail := buildFiles content rest
    if fileContent = "" then tail
    else { filename := jsTrim m.filename, content := fileContent } :: tail

/-- `parseDelimitedProtoContent`: split one text blob into named virtual
proto files.  Empty or whitespace-only input yields no files; input with no
boundary markers becomes a single file `main.proto` holding the trimmed
blob; otherwise one file per marker is built by `buildFiles`. -/
def parseDelimitedProtoContent (content : String) : List ProtoFile :=
  if jsTrim content = "" then []
  else
    let found := findMarkers content
    if found.isEmpty then [{ filename := "main.proto", content := jsTrim content }]
    else buildFiles content found

/-! ## Schema resolution (`parseProtoFiles`, protoParser.ts 159-202)

`protobuf.parse(content, root)` of protobufjs is abstracted: the namespace
`Root` is modelled as the list of fully-qualified type names defined so far,
and a source file is modelled by the list of type names its text declares
together with a well-formedness flag.  Parsing a file adds its declarations
to the root; it fails when the text is malformed or when a declaration
collides with an already-defined name (protobufjs "duplicate name").  The
declaration lists of the six well-known files are read off the literal
proto texts `GOOGLE_PROTOBUF_ANY` ... `GOOGLE_PROTOBUF_EMPTY` in the
source. -/

/-- A proto source file as seen by the `protobuf.parse` abstraction:
the type names its text declares, the type names its declarations reference
(field types and the like, resolved by `root.resolveAll()`), and a
well-formedness flag. -/
structure MProtoFile where
  filename : String
  decls : List String
  refs : List String
  wellFormed : Bool
deriving DecidableEq

/-- The defined-name registry built by parsing. -/
abbrev PbRoot := List String

/-- Model of one `protobuf.parse(file.content, root)` call: fails on
malformed text or on a name collision, otherwise registers the file's
declarations. -/
def pbParse (root : PbRoot) (file : MProtoFile) : Except String PbRoot :=
  if ¬ file.wellFormed then Except.error "parse error"
  else if file.decls.any (fun d => root.contains d) then Except.error "duplicate name"
  else Except.ok (root ++ file.decls)

/-- `getWellKnownTypes` (protoParser.ts 93-102): the six bundled well-known
files, with the type names their literal contents declare. -/
def getWellKnownTypes : List MProtoFile :=
  [ { filename := "google/protobuf/any.proto",
      decls := ["google.protobuf.Any"], refs := [], wellFormed := true },
    { filename := "google/protobuf/struct.proto",
      decls := ["google.protobuf.Struct", "google.protobuf.Value",
                "google.protobuf.NullValue", "google.protobuf.ListValue"],
      refs := ["google.protobuf.Value", "google.protobuf.NullValue",
               "google.protobuf.Struct", "google.protobuf.ListValue"],
      wellFormed := true },
    { filename := "google/protobuf/wrappers.proto",
      decls := ["google.protobuf.DoubleValue", "google.protobuf.FloatValue",
                "google.protobuf.Int64Value", "google.protobuf.UInt64Value",
                "google.protobuf.Int32Value", "google.protobuf.UInt32Value",
                "google.protobuf.BoolValue", "google.protobuf.StringValue",
                "google.protobuf.BytesValue"],
      refs := [], wellFormed := true },
    { filename := "google/protobuf/timestamp.proto",
      decls := ["google.protobuf.Timestamp"], refs := [], wellFormed := true },
    { filename := "google/protobuf/duration.proto",
      decls := ["google.protobuf.Duration"], refs := [], wellFormed := true },
    { filename := "google/protobuf/empty.proto",
      decls := ["google.protobuf.Empty"], refs := [], wellFormed := true } ]

/-- All type names carried by the well-known file set. -/
def wellKnownTypeNames : List String :=
  (getWellKnownTypes.map MProtoFile.decls).flatten

/-- The first loop of `parseProtoFiles` (lines 181-187): parse each
well-known file, silently ignoring any failure ("type may already be
defined"). -/
def parseWellKnownInto (root : PbRoot) (files : List MProtoFile) : PbRoot :=
  files.foldl (fun r f =>
    match pbParse r f with
    | Except.ok r2 => r2
    | Except.error _ => r) root

/-- The error raised for a user file (line 194). -/
def userParseError (filename msg : String) : String :=
  "Failed to parse proto file \"" ++ filename ++ "\": " ++ msg

/-- The second loop of `parseProtoFiles` (lines 190-196): parse each user
file in order; a failure is fatal and is wrapped with the filename. -/
def parseUserFiles (root : PbRoot) : List MProtoFile → Except String PbRoot
  | [] => Except.ok root
  | f :: rest =>
    match pbParse root f with
    | Except.ok r2 => parseUserFiles r2 rest
    | Except.error e => Except.error (userParseError f.filename e)

/-- The unwrapped error `root.resolveAll()` throws for an unresolved
reference (protobufjs `lookupTypeOrEnum`); note it is not of the
`Failed to parse proto file` form. -/
def noSuchTypeError (r : String) : String :=
  "no such Type or Enum \"" ++ r ++ "\""

/-- `root.resolveAll()` (protoParser.ts line 199): resolve every reference
of the parsed files against the registry; the first reference that names no
defined type throws an unwrapped `no such Type or Enum` error, otherwise the
registry is returned unchanged.  Only the user files' references are
checked: the six well-known texts reference only types they themselves
declare, so their resolution never fails. -/
def resolveAllRefs (root : PbRoot) (files : List MProtoFile) : Except String PbRoot :=
  match files.findSome? (fun f => f.refs.find? (fun r => !(root.contains r))) with
  | some r => Except.error (noSuchTypeError r)
  | none => Except.ok root

/-- `parseProtoFiles` generalised over the injected well-known set (the
source always passes `getWellKnownTypes`): parse the well-known files with
failures swallowed, parse the user files fatally, then run the final
`root.resolveAll()` pass. -/
def parseProtoFilesWith (wellKnown userFiles : List MProtoFile) : Except String PbRoot :=
  match parseUserFiles (parseWellKnownInto [] wellKnown) userFiles with
  | Except.ok root => resolveAllRefs root userFiles
  | Except.error e => Except.error e

/-- `parseProtoFiles`: build the schema registry from the well-known files
followed by the user files. -/
def parseProtoFiles (userFiles : List MProtoFile) : Except String PbRoot :=
  parseProtoFilesWith getWellKnownTypes userFiles

/-! ## JSON values and the protobufjs message model

The `Any` codec of grpcClient.ts operates on untyped JavaScript values.
They are modelled by `Json`; `Json.bytes` stands for a `Buffer` of raw wire
bytes, and `Json.pbmsg` for the `Buffer` produced by the protobufjs
serializer `messageType.encode(message).finish()`, kept in symbolic form
(type name plus the encoded field list) because the binary wire format
itself is external-library behaviour.

A protobufjs message type is modelled by its ordered field list; field
kinds cover the scalar kinds exercised by the codec (32-bit integers,
64-bit integers, strings, booleans); nested message, enum, bytes and
repeated fields are outside the model.  `messageType.decode` followed by
`messageType.toObject(..., { longs: String, enums: String, bytes: String,
defaults: true })` yields, for every declared field, the wire value when
present (64-bit integers re-rendered as decimal strings) and the default
rendering otherwise. -/

/-- An untyped JavaScript value in a request or response tree. -/
inductive Json where
  | null
  | bool (b : Bool)
  | num (n : Int)
  | str (s : String)
  | arr (elems : List Json)
  | obj (fields : List (String × Json))
  | bytes (bs : List Nat)
  | pbmsg (tyName : String) (stored : List (String × Json))

/-- JavaScript truthiness of a value (`Buffer`s of any length are truthy). -/
def jsTruthy : Json → Bool
  | Json.null => false
  | Json.bool b => b
  | Json.num n => n ≠ 0
  | Json.str s => s ≠ ""
  | Json.arr _ => true
  | Json.obj _ => true
  | Json.bytes _ => true
  | Json.pbmsg _ _ => true

/-- Scalar field kinds modelled for protobufjs message types. -/
inductive FieldKind where
  | i32
  | i64
  | strT
  | boolT
deriving DecidableEq

/-- One declared message field. -/
structure FieldDef where
  name : String
  kind : FieldKind
deriving DecidableEq

/-- A protobufjs message type: its ordered declared fields. -/
structure MessageType where
  fields : List FieldDef
deriving DecidableEq

/-- The resolved schema graph used by the codec: fully-qualified type names
mapped to message types (`protobuf.Root` restricted to `lookupType`). -/
abbrev SchemaRoot := List (String × MessageType)

/-- `root.lookupType(name)`: `some` on success, `none` when protobufjs
throws "no such type". -/
def lookupType (root : SchemaRoot) (name : String) : Option MessageType :=
  List.lookup name root

/-- The two-step lookup both codec directions perform: the bare name first,
then the dot-prefixed fully-qualified form. -/
def lookupAnyType (root : SchemaRoot) (typeName : String) : Option MessageType :=
  match lookupType root typeName with
  | some ty => some ty
  | none => lookupType root ("." ++ typeName)

/-- `typeUrl.includes('/') ? typeUrl.split('/').pop()! : typeUrl`: the
substring after the last `/`, or the whole string when it has no `/`. -/
def afterLastSlash (s : String) : String :=
  if s.data.contains '/' then ⟨(s.data.reverse.takeWhile (fun c => c ≠ '/')).reverse⟩
  else s

/-- The base64 alphabet. -/
def b64Char (n : Nat) : Char :=
  "ABCDEFGHIJKLMNOPQRSTUVWXYZabcdefghijklmnopqrstuvwxyz0123456789+/".data.getD n 'A'

/-- Standard base64 of a byte list (the `Buffer.prototype.toString('base64')`
encoding), with `=` padding. -/
def base64Chars : List Nat → List Char
  | [] => []
  | [a] => [b64Char (a / 4), b64Char (a % 4 * 16), '=', '=']
  | [a, b] => [b64Char (a / 4), b64Char (a % 4 * 16 + b / 16), b64Char (b % 16 * 4), '=']
  | a :: b :: c :: rest =>
    b64Char (a / 4) :: b64Char (a % 4 * 16 + b / 16) ::
      b64Char (b % 16 * 4 + c / 64) :: b64Char (c % 64) :: base64Chars rest

/-- `Buffer.from(bs).toString('base64')`. -/
def base64 (bs : List Nat) : String :=
  ⟨base64Chars bs⟩

/-- `Buffer.from(v).toString('base64')` for the payload shapes the fallback
path can see.  Raw wire bytes are encoded faithfully; strings via their code
points; other shapes (which the wire never produces as an `Any` payload) are
modelled as an empty buffer. -/
def b64ValueOf : Json → String
  | Json.bytes bs => base64 bs
  | Json.str s => base64 (s.data.map Char.toNat)
  | _ => base64 []

/-- The verify-failure text protobufjs produces for each modelled kind. -/
def verifyErrMsg : FieldKind → String
  | FieldKind.i32 => "integer expected"
  | FieldKind.i64 => "integer|Long expected"
  | FieldKind.strT => "string expected"
  | FieldKind.boolT => "boolean expected"

/-- Does a JavaScript value have the right shape for a field kind? (The
protobufjs `verify` check; 64-bit integer fields accept plain integers
only.) -/
def kindMatches (k : FieldKind) (v : Json) : Bool :=
  match k, v with
  | FieldKind.i32, Json.num _ => true
  | FieldKind.i64, Json.num _ => true
  | FieldKind.strT, Json.str _ => true
  | FieldKind.boolT, Json.bool _ => true
  | _, _ => false

/-- Is a value the JavaScript `null` (skipped by verify and the encoder)? -/
def isNullJson : Json → Bool
  | Json.null => true
  | _ => false

/-- `messageType.verify(messageFields)`: walk the declared fields in order;
a field that is absent or `null` is skipped; the first field whose present
value has the wrong shape yields the error text, otherwise `none`.  Keys of
the object that name no declared field are ignored by protobufjs. -/
def verifyMsg (ty : MessageType) (fields : List (String × Json)) : Option String :=
  ty.fields.findSome? (fun f =>
    match List.lookup f.name fields with
    | some v =>
      if isNullJson v then none
      else if kindMatches f.kind v then none
      else some (f.name ++ ": " ++ verifyErrMsg f.kind)
    | none => none)

/-- Two's-complement wrap of an integer to `w` bits. -/
def wrapInt (w : Nat) (n : Int) : Int :=
  (n + 2 ^ (w - 1)) % 2 ^ w - 2 ^ (w - 1)

/-- The value a field actually carries on the wire.  protobufjs truncates
32-bit integer fields when writing and reading (`Writer.int32` via `>>> 0`,
`Reader.int32` via `| 0`), and funnels 64-bit fields through `LongBits`,
which wraps two's-complement to 64 bits; both amount to wrapping the given
integer to the field's width.  (JavaScript numbers are doubles; integers
beyond double precision are idealized as exact here.)  Strings and booleans
pass through unchanged. -/
def wireVal (k : FieldKind) (v : Json) : Json :=
  match k, v with
  | FieldKind.i32, Json.num n => Json.num (wrapInt 32 n)
  | FieldKind.i64, Json.num n => Json.num (wrapInt 64 n)
  | _, _ => v

/-- `messageType.create` + `messageType.encode(...).finish()`: the encoder
writes, in declaration order, exactly the declared fields that are present
and non-null on the object, wrapped to the field's integer width by the
writer; everything else is dropped. -/
def storedFields (ty : MessageType) (fields : List (String × Json)) : List (String × Json) :=
  ty.fields.filterMap (fun f =>
    match List.lookup f.name fields with
    | some v => if isNullJson v then none else some (f.name, wireVal f.kind v)
    | none => none)

/-- The `toObject` rendering of a stored wire value (`longs: String`):
64-bit integer fields come back as decimal strings; a value whose shape does
not fit the field kind makes the decode fail.  Wire values are already
wrapped to the field width by the writer (`wireVal`), and the reader's
`| 0` / `Long` interpretation is the identity on them. -/
def renderVal (k : FieldKind) (v : Json) : Option Json :=
  match k, v with
  | FieldKind.i32, Json.num n => some (Json.num n)
  | FieldKind.i64, Json.num n => some (Json.str (toString n))
  | FieldKind.strT, Json.str s => some (Json.str s)
  | FieldKind.boolT, Json.bool b => some (Json.bool b)
  | _, _ => none

/-- The `toObject` default rendering (`defaults: true, longs: String`) of an
absent field. -/
def defaultVal : FieldKind → Json
  | FieldKind.i32 => Json.num 0
  | FieldKind.i64 => Json.str "0"
  | FieldKind.strT => Json.str ""
  | FieldKind.boolT => Json.bool false

/-- One field of the object produced by `decode` + `toObject`. -/
def decodeFieldEntry (stored : List (String × Json)) (f : FieldDef) : Option (String × Json) :=
  match List.lookup f.name stored with
  | some v => (renderVal f.kind v).map (fun rv => (f.name, rv))
  | none => some (f.name, defaultVal f.kind)

/-- `messageType.decode(buffer)` + `messageType.toObject(...)`: succeeds on
a buffer our encoder produced, reconstructing every declared field (stored
value rendered, or default); raw network bytes are opaque to the model, so
decoding them is treated as the protobufjs decode throwing. -/
def decodeMsgFields (ty : MessageType) (payload : Json) : Option (List (String × Json)) :=
  match payload with
  | Json.pbmsg _ stored => ty.fields.mapM (decodeFieldEntry stored)
  | _ => none

/-! ## The Any codec (`decodeAnyValue` / `encodeAnyValue`, grpcClient.ts 205-323) -/

/-- The degraded value `{'@type': typeUrl, value: base64(payload) | null}`
returned when the type lookup or the payload decode fails (grpcClient.ts
lines 229-233, 255-258 and 261-264). -/
def anyFallback (typeUrl : String) (fields : List (String × Json)) : Json :=
  Json.obj [("@type", Json.str typeUrl),
    ("value",
      match List.lookup "value" fields with
      | some v => if jsTruthy v then Json.str (b64ValueOf v) else Json.null
      | none => Json.null)]

/-- `decodeAnyValue(anyValue, root)`: decode a wire `Any` object (given as
its field list) to the tagged JSON form.  A missing or falsy `type_url`
returns the object unchanged; an unresolvable type or an undecodable
payload degrades to `anyFallback`; on success the decoded fields are merged
under an `'@type'` key.  `Except.error` models the only uncaught exception
path: `typeUrl.split` on a truthy non-string `type_url`, which is evaluated
before the enclosing `try`. -/
def decodeAnyValue (fields : List (String × Json)) (root : SchemaRoot) : Except String Json :=
  match List.lookup "type_url" fields with
  | none => Except.ok (Json.obj fields)
  | some tu =>
    if jsTruthy tu then
      match tu with
      | Json.str typeUrl =>
        let typeName := afterLastSlash typeUrl
        match lookupAnyType root typeName with
        | none => Except.ok (anyFallback typeUrl fields)
        | some ty =>
          match List.lookup "value" fields with
          | some v =>
            if jsTruthy v then
              match decodeMsgFields ty v with
              | some decoded => Except.ok (Json.obj (("@type", Json.str typeUrl) :: decoded))
              | none => Except.ok (anyFallback typeUrl fields)
            else Except.ok (anyFallback typeUrl fields)
          | none => Except.ok (anyFallback typeUrl fields)
      | _ => Except.error "TypeError: typeUrl.split is not a function"
    else Except.ok (Json.obj fields)

/-- `encodeAnyValue(jsonValue, root)`: encode a JSON object tagged `'@type'`
(given as its field list) to the wire `Any` pair.  A missing or falsy
`'@type'` returns the object unchanged.  An unresolvable type throws
`Type not found`; a shape mismatch throws `Invalid message structure`; both
are re-thrown, never degraded.  On success the `'@type'` key is stripped and
the remaining fields are verified, created and serialized. -/
def encodeAnyValue (fields : List (String × Json)) (root : SchemaRoot) : Except String Json :=
  match List.lookup "@type" fields with
  | none => Except.ok (Json.obj fields)
  | some tv =>
    if jsTruthy tv then
      match tv with
      | Json.str typeUrl =>
        let typeName := afterLastSlash typeUrl
        match lookupAnyType root typeName with
        | none => Except.error ("Type not found: " ++ typeName)
        | some ty =>
          let messageFields := fields.filter (fun p => p.1 ≠ "@type")
          match verifyMsg ty messageFields with
          | some errMsg => Except.error ("Invalid message structure: " ++ errMsg)
          | none => Except.ok (Json.obj
              [("type_url", Json.str typeUrl),
               ("value", Json.pbmsg typeName (storedFields ty messageFields))])
      | _ => Except.error "TypeError: typeUrl.split is not a function"
    else Except.ok (Json.obj fields)

/-- `decode(encode(x))`: the round trip the spec states for tagged objects —
encode the tagged field list, then decode the resulting wire pair over the
same schema graph. -/
def anyRoundTripResult (fields : List (String × Json)) (root : SchemaRoot) : Except String Json :=
  match encodeAnyValue fields root with
  | Except.ok (Json.obj wire) => decodeAnyValue wire root
  | other => other

/-! ## The recursive tree walkers (`processResponseForAny` /
`processRequestForAny`, grpcClient.ts 328-391)

Both walkers recurse through arrays element-wise and through plain objects
field-by-field, dispatching to the codec when the marker shape is present
(`type_url` and `value` keys inbound, an `'@type'` key outbound).  The
TypeScript recursion is unbounded; here a fuel parameter bounds the depth
(every theorem quantifies over it), which keeps the definitions structurally
recursive and executable.  `Buffer` leaves pass through unchanged (the
walker's `Object.entries` iteration over a `Buffer`'s numeric indices is not
modelled). -/

/-- `processResponseForAny(obj, root)`: Any-decode every node of a response
tree that carries both a `type_url` and a `value` key. -/
def processResponseForAny (root : SchemaRoot) : Nat → Json → Except String Json
  | 0, j => Except.ok j
  | Nat.succ fuel, j =>
    match j with
    | Json.arr elems =>
      (elems.mapM (processResponseForAny root fuel)).map Json.arr
    | Json.obj fields =>
      if (List.lookup "type_url" fields).isSome ∧ (List.lookup "value" fields).isSome then
        decodeAnyValue fields root
      else
        (fields.mapM (fun p =>
          (processResponseForAny root fuel p.2).map (fun v => (p.1, v)))).map Json.obj
    | j => Except.ok j

/-- `processRequestForAny(obj, root)`: Any-encode every node of a request
tree that carries an `'@type'` key; encoder errors propagate and fail the
whole request. -/
def processRequestForAny (root : SchemaRoot) : Nat → Json → Except String Json
  | 0, j => Except.ok j
  | Nat.succ fuel, j =>
    match j with
    | Json.arr elems =>
      (elems.mapM (processRequestForAny root fuel)).map Json.arr
    | Json.obj fields =>
      if (List.lookup "@type" fields).isSome then
        encodeAnyValue fields root
      else
        (fields.mapM (fun p =>
          (processRequestForAny root fuel p.2).map (fun v => (p.1, v)))).map Json.obj
    | j => Except.ok j

/-! ## Server streaming (`GrpcClientWrapper.invokeServerStreaming`,
grpcClient.ts 463-511)

The readable event stream is modelled as the ordered list of events the
transport emits.  The handler semantics mirror the three `call.on`
registrations resolving one promise: each `data` payload is Any-decoded and
appended to the accumulator; the first `error` event rejects with the
wrapped transport error, discarding the accumulator; the first `end` event
resolves with the accumulator.  Events after the first terminal event
cannot re-settle the promise and are ignored.  An exception thrown by the
decoder inside the `data` handler is modelled as rejecting the call. -/

/-- One event of a server-streaming call. -/
inductive StreamEvent where
  | data (payload : Json)
  | errorEv (code : Nat) (msg : String)
  | endEv

/-- The wrapped transport error of the streaming path (line 504). -/
def streamErrorMsg (code : Nat) (msg : String) : String :=
  "gRPC stream error (" ++ toString code ++ "): " ++ msg

/-- The event loop of `invokeServerStreaming`: `none` when the stream never
emits a terminal event (the promise stays pending). -/
def streamAccumulate (root : SchemaRoot) (fuel : Nat) :
    List StreamEvent → List Json → Option (Except String (List Json))
  | [], _ => none
  | StreamEvent.data payload :: rest, acc =>
    match processResponseForAny root fuel payload with
    | Except.ok processed => streamAccumulate root fuel rest (acc ++ [processed])
    | Except.error e => some (Except.error e)
  | StreamEvent.errorEv code msg :: _, _ =>
    some (Except.error (streamErrorMsg code msg))
  | StreamEvent.endEv :: _, acc => some (Except.ok acc)

/-- `invokeServerStreaming`: run the handler over the emitted events with an
empty accumulator. -/
def invokeServerStreaming (root : SchemaRoot) (fuel : Nat)
    (events : List StreamEvent) : Option (Except String (List Json)) :=
  streamAccumulate root fuel events []

/-! ## Client construction (`createGrpcClient` / `cleanupTempDir`,
grpcClient.ts 82-144 and 176-182)

Everything after `fs.mkdtempSync` runs inside one `try` whose `catch`
deletes the staging directory and re-throws.  The filesystem is modelled by
a flag for the staging directory's existence, and each fallible stage of
the `try` body by an outcome oracle (writing the well-known files, writing
the user files, `protoLoader.load` + `loadPackageDefinition`, locating the
service constructor, building credentials, instantiating the client, and
`parseProtoFiles`).  `fs.rmSync(..., { recursive: true, force: true })` is
modelled as always removing the directory. -/

/-- The filesystem state relevant to construction: does the ephemeral
staging directory exist? -/
structure FsState where
  tempDirExists : Bool
deriving DecidableEq

/-- `cleanupTempDir`: remove the staging directory. -/
def cleanupTempDir (_s : FsState) : FsState :=
  { tempDirExists := false }

/-- The fallible stages of the `try` body of `createGrpcClient`, in source
order. -/
inductive BuildStep where
  | writeWellKnown
  | writeUserFiles
  | loadDefinitions
  | findService
  | buildCredentials
  | instantiateClient
  | parseSchema
deriving DecidableEq

/-- The stages in the order the source executes them. -/
def createGrpcClientSteps : List BuildStep :=
  [BuildStep.writeWellKnown, BuildStep.writeUserFiles, BuildStep.loadDefinitions,
   BuildStep.findService, BuildStep.buildCredentials, BuildStep.instantiateClient,
   BuildStep.parseSchema]

/-- Run the stages in order, stopping at the first failure. -/
def runSteps (outcome : BuildStep → Except String Unit) : List BuildStep → Except String Unit
  | [] => Except.ok ()
  | s :: rest =>
    match outcome s with
    | Except.ok _ => runSteps outcome rest
    | Except.error e => Except.error e

/-- `createGrpcClient`: create the staging directory, run the `try` body;
on any failure, clean the directory up and propagate the error; on success
the directory stays (it is owned by the wrapper until `close()`). -/
def createGrpcClient (outcome : BuildStep → Except String Unit) :
    Except String Unit × FsState :=
  let tempDir : FsState := { tempDirExists := true }
  match runSteps outcome createGrpcClientSteps with
  | Except.ok _ => (Except.ok (), tempDir)
  | Except.error e => (Except.error e, cleanupTempDir tempDir)

/-- Number of fields of an `Except.ok` object result (and `0` otherwise);
used to tell differently-shaped decode results apart. -/
def okObjFieldCount : Except String Json → Nat
  | Except.ok (Json.obj fs) => fs.length
  | _ => 0

/-! # Theorems -/

/-! ## Helper lemmas -/

theorem createMetadata_foldl_eq (entries : List MetadataEntry) :
    ∀ acc : List (String × String),
      entries.foldl (fun acc entry =>
        let key := jsTrim entry.key
        let v := jsTrim entry.value
        if key ≠ "" ∧ v ≠ "" then acc ++ [(jsToLower key, v)] else acc) acc =
      acc ++ entries.filterMap (fun entry =>
        if jsTrim entry.key ≠ "" ∧ jsTrim entry.value ≠ "" then
          some (jsToLower (jsTrim entry.key), jsTrim entry.value) else none) := by
  induction entries with
  | nil => intro acc; simp
  | cons e rest ih =>
    intro acc
    by_cases h : jsTrim e.key ≠ "" ∧ jsTrim e.value ≠ ""
    · simp only [List.foldl_cons, List.filterMap_cons, if_pos h, ih, List.append_assoc,
        List.singleton_append]
    · simp only [List.foldl_cons, List.filterMap_cons, if_neg h, ih]

/-- Claim C9: for every list of metadata entries, the transmitted metadata
contains exactly the entries whose key and value are both non-empty after
trimming, with each key lowercased and each value trimmed, in order; in
particular `{key: "Authorization", value: " Bearer x "}` is transmitted as
`("authorization", "Bearer x")` and an entry whose value trims to empty is
omitted entirely. -/
theorem c9_metadata_normalized :
    (∀ entries : List MetadataEntry,
      createMetadata entries = entries.filterMap (fun entry =>
        if jsTrim entry.key ≠ "" ∧ jsTrim entry.value ≠ "" then
          some (jsToLower (jsTrim entry.key), jsTrim entry.value) else none)) ∧
    createMetadata [{ key := "Authorization", value := " Bearer x " },
                    { key := "X-Empty", value := "   " }] =
      [("authorization", "Bearer x")] := by
  constructor
  · intro entries
    unfold createMetadata
    simpa using createMetadata_foldl_eq entries []
  · decide

/-- Claim C10: an input blob that is empty or consists only of whitespace
yields an empty file list — no `main.proto` entry is produced. -/
theorem c10_blank_input_empty (content : String) (h : jsTrim content = "") :
    parseDelimitedProtoContent content = [] := by
  unfold parseDelimitedProtoContent
  rw [if_pos h]

/-- Witness for C10 at the whitespace-only input `"  \n "`. -/
theorem c10_blank_input_witness :
    jsTrim "  \n " = "" ∧ parseDelimitedProtoContent "  \n " = [] :=
  ⟨by decide, c10_blank_input_empty "  \n " (by decide)⟩

/-- Counterexample to claim C4 as stated: the whitespace-only blob `" "`
contains zero boundary-marker lines, yet the splitter returns no file at
all rather than one `main.proto` file holding the trimmed input. -/
theorem c4_no_marker_cex :
    findMarkers " " = [] ∧
    parseDelimitedProtoContent " " = [] ∧
    parseDelimitedProtoContent " " ≠
      [{ filename := "main.proto", content := jsTrim " " }] := by
  refine ⟨by decide, by decide, by decide⟩

/-- Claim C4 (amended): for every input text blob whose trimmed content is
non-empty and which contains zero boundary-marker lines, the splitter
returns exactly one file, named `main.proto`, whose content equals the
input with leading and trailing whitespace trimmed. -/
theorem c4_no_marker_single_file (content : String)
    (h1 : jsTrim content ≠ "") (h2 : findMarkers content = []) :
    parseDelimitedProtoContent content =
      [{ filename := "main.proto", content := jsTrim content }] := by
  unfold parseDelimitedProtoContent
  rw [if_neg h1]
  simp [h2]

/-- Witness for C4 at the marker-free input `"message Foo"`. -/
theorem c4_no_marker_witness :
    jsTrim "message Foo" ≠ "" ∧ findMarkers "message Foo" = [] ∧
    parseDelimitedProtoContent "message Foo" =
      [{ filename := "main.proto", content := "message Foo" }] :=
  ⟨by decide, by decide,
    (c4_no_marker_single_file "message Foo" (by decide) (by decide)).trans (by decide)⟩

/-- Claim C8: whenever client construction fails at any stage after the
ephemeral staging directory is created, the directory is deleted before the
error propagates to the caller. -/
theorem c8_cleanup_on_failure (outcome : BuildStep → Except String Unit) (e : String)
    (h : (createGrpcClient outcome).1 = Except.error e) :
    (createGrpcClient outcome).2.tempDirExists = false := by
  unfold createGrpcClient at h ⊢
  cases hr : runSteps outcome createGrpcClientSteps with
  | ok u => rw [hr] at h; exact absurd h (by simp)
  | error e2 => rfl

/-- Witness for C8: an outcome where locating the service constructor
fails. -/
theorem c8_cleanup_witness :
    (createGrpcClient (fun s =>
        if s = BuildStep.findService then
          Except.error "Service \"pkg.Svc\" not found in proto definitions"
        else Except.ok ())).1 =
      Except.error "Service \"pkg.Svc\" not found in proto definitions" ∧
    (createGrpcClient (fun s =>
        if s = BuildStep.findService then
          Except.error "Service \"pkg.Svc\" not found in proto definitions"
        else Except.ok ())).2.tempDirExists = false :=
  ⟨rfl, c8_cleanup_on_failure _
    "Service \"pkg.Svc\" not found in proto definitions" rfl⟩

theorem streamAccumulate_data_events (root : SchemaRoot) (fuel : Nat)
    (tailEvents : List StreamEvent) :
    ∀ (payloads processed acc : List Json),
      payloads.mapM (processResponseForAny root fuel) = Except.ok processed →
      streamAccumulate root fuel (payloads.map StreamEvent.data ++ tailEvents) acc =
        streamAccumulate root fuel tailEvents (acc ++ processed) := by
  intro payloads
  induction payloads with
  | nil =>
    intro processed acc h
    simp only [List.mapM_nil, pure, Except.pure] at h
    cases h
    simp [streamAccumulate]
  | cons p ps ih =>
    intro processed acc h
    rw [List.mapM_cons] at h
    cases hv : processResponseForAny root fuel p with
    | error e => rw [hv] at h; simp [Bind.bind, Except.bind] at h
    | ok v =>
      rw [hv] at h
      cases hvs : ps.mapM (processResponseForAny root fuel) with
      | error e => rw [hvs] at h; simp [Bind.bind, Except.bind] at h
      | ok vs =>
        rw [hvs] at h
        simp only [Bind.bind, Except.bind, pure, Except.pure, Except.ok.injEq] at h
        subst h
        simp only [List.map_cons, List.cons_append, streamAccumulate, hv, List.append_eq]
        rw [ih vs (acc ++ [v]) hvs, List.append_assoc, List.singleton_append]

/-- Claim C7: on a server-streaming call every received data item is
Any-decoded and appended in arrival order; an `end` event resolves the call
with the complete ordered sequence, and an `error` event rejects the whole
call with the wrapped transport error carrying the status code, discarding
every partial result already accumulated. -/
theorem c7_streaming_order_and_error (root : SchemaRoot) (fuel : Nat) :
    (∀ payloads processed : List Json,
      payloads.mapM (processResponseForAny root fuel) = Except.ok processed →
      invokeServerStreaming root fuel
          (payloads.map StreamEvent.data ++ [StreamEvent.endEv]) =
        some (Except.ok processed)) ∧
    (∀ (payloads processed : List Json) (code : Nat) (msg : String)
        (rest : List StreamEvent),
      payloads.mapM (processResponseForAny root fuel) = Except.ok processed →
      invokeServerStreaming root fuel
          (payloads.map StreamEvent.data ++ StreamEvent.errorEv code msg :: rest) =
        some (Except.error (streamErrorMsg code msg))) := by
  constructor
  · intro payloads processed h
    unfold invokeServerStreaming
    rw [streamAccumulate_data_events root fuel [StreamEvent.endEv] payloads processed [] h]
    rfl
  · intro payloads processed code msg rest h
    unfold invokeServerStreaming
    rw [streamAccumulate_data_events root fuel (StreamEvent.errorEv code msg :: rest)
      payloads processed [] h]
    rfl

/-- Witness for C7 with a one-item stream over an empty schema graph. -/
theorem c7_streaming_witness :
    ([Json.num 1].mapM (processResponseForAny [] 0) = Except.ok [Json.num 1]) ∧
    invokeServerStreaming [] 0
        ([Json.num 1].map StreamEvent.data ++ [StreamEvent.endEv]) =
      some (Except.ok [Json.num 1]) ∧
    invokeServerStreaming [] 0
        ([Json.num 1].map StreamEvent.data ++ StreamEvent.errorEv 14 "unavailable" :: []) =
      some (Except.error (streamErrorMsg 14 "unavailable")) :=
  ⟨rfl,
    (c7_streaming_order_and_error [] 0).1 [Json.num 1] [Json.num 1] rfl,
    (c7_streaming_order_and_error [] 0).2 [Json.num 1] [Json.num 1] 14 "unavailable" [] rfl⟩

theorem pbParse_ok_shape (root : PbRoot) (f : MProtoFile) (r2 : PbRoot)
    (h : pbParse root f = Except.ok r2) : r2 = root ++ f.decls := by
  unfold pbParse at h
  by_cases h1 : f.wellFormed
  · rw [if_neg (by simpa using h1)] at h
    by_cases h2 : f.decls.any (fun d => root.contains d)
    · rw [if_pos h2] at h; cases h
    · rw [if_neg h2] at h; cases h; rfl
  · rw [if_pos (by simpa using h1)] at h; cases h

theorem parseUserFiles_mono :
    ∀ (users : List MProtoFile) (root0 root1 : PbRoot),
      parseUserFiles root0 users = Except.ok root1 → ∃ ext, root1 = root0 ++ ext := by
  intro users
  induction users with
  | nil =>
    intro root0 root1 h
    cases h
    exact ⟨[], by simp⟩
  | cons f rest ih =>
    intro root0 root1 h
    unfold parseUserFiles at h
    cases hp : pbParse root0 f with
    | ok r2 =>
      rw [hp] at h
      obtain ⟨ext, hext⟩ := ih r2 root1 h
      exact ⟨f.decls ++ ext, by rw [hext, pbParse_ok_shape root0 f r2 hp, List.append_assoc]⟩
    | error e => rw [hp] at h; cases h

theorem parseUserFiles_error_from_user :
    ∀ (users : List MProtoFile) (root0 : PbRoot) (e : String),
      parseUserFiles root0 users = Except.error e →
      ∃ f ∈ users, ∃ msg, e = userParseError f.filename msg := by
  intro users
  induction users with
  | nil => intro root0 e h; cases h
  | cons f rest ih =>
    intro root0 e h
    unfold parseUserFiles at h
    cases hp : pbParse root0 f with
    | ok r2 =>
      rw [hp] at h
      obtain ⟨g, hg, msg, hmsg⟩ := ih r2 e h
      exact ⟨g, List.mem_cons_of_mem f hg, msg, hmsg⟩
    | error e2 =>
      rw [hp] at h
      cases h
      exact ⟨f, List.mem_cons_self f rest, e2, rfl⟩

theorem resolveAllRefs_ok_eq (root : PbRoot) (files : List MProtoFile)
    (root2 : PbRoot) (h : resolveAllRefs root files = Except.ok root2) :
    root2 = root := by
  unfold resolveAllRefs at h
  cases hf : files.findSome? (fun f => f.refs.find? (fun r => !(root.contains r))) with
  | none => rw [hf] at h; cases h; rfl
  | some r => rw [hf] at h; cases h

theorem resolveAllRefs_error_from_refs (root : PbRoot) (files : List MProtoFile)
    (e : String) (h : resolveAllRefs root files = Except.error e) :
    ∃ f ∈ files, ∃ r ∈ f.refs, e = noSuchTypeError r := by
  unfold resolveAllRefs at h
  cases hf : files.findSome? (fun f => f.refs.find? (fun r => !(root.contains r))) with
  | none => rw [hf] at h; cases h
  | some r =>
    rw [hf] at h
    cases h
    obtain ⟨f, hfm, hg⟩ := List.exists_of_findSome?_eq_some hf
    exact ⟨f, hfm, r, List.mem_of_find?_eq_some hg, rfl⟩

/-- Claim C6: whenever the resolver accepts a list of user proto files, the
resulting schema graph contains every well-known type name (Any, Struct,
wrappers, Timestamp, Duration, Empty) without any user import of them; and
a parse failure of a well-known file itself is swallowed and never causes
the resolution to fail — every failure of the resolver is either a user
file's parse error or an unresolved reference of a user file's
declarations, never a well-known file's. -/
theorem c6_well_known_types_available :
    (∀ (userFiles : List MProtoFile) (root : PbRoot),
      parseProtoFiles userFiles = Except.ok root →
      ∀ n ∈ wellKnownTypeNames, n ∈ root) ∧
    (∀ (wellKnown userFiles : List MProtoFile) (e : String),
      parseProtoFilesWith wellKnown userFiles = Except.error e →
      (∃ f ∈ userFiles, ∃ msg, e = userParseError f.filename msg) ∨
      (∃ f ∈ userFiles, ∃ r ∈ f.refs, e = noSuchTypeError r)) := by
  constructor
  · intro userFiles root h n hn
    unfold parseProtoFiles parseProtoFilesWith at h
    cases hp : parseUserFiles (parseWellKnownInto [] getWellKnownTypes) userFiles with
    | error e2 => rw [hp] at h; cases h
    | ok root2 =>
      rw [hp] at h
      obtain rfl := resolveAllRefs_ok_eq root2 userFiles root h
      obtain ⟨ext, hext⟩ := parseUserFiles_mono userFiles _ root hp
      rw [hext]
      refine List.mem_append_left ext ?_
      revert hn
      revert n
      decide
  · intro wellKnown userFiles e h
    unfold parseProtoFilesWith at h
    cases hp : parseUserFiles (parseWellKnownInto [] wellKnown) userFiles with
    | error e2 =>
      rw [hp] at h
      cases h
      exact Or.inl (parseUserFiles_error_from_user userFiles _ e hp)
    | ok root2 =>
      rw [hp] at h
      exact Or.inr (resolveAllRefs_error_from_refs root2 userFiles e h)

/-- Witness for C6: a user file declaring `pkg.Svc` and referencing
`google.protobuf.Any` resolves with `google.protobuf.Timestamp` available;
a malformed user file fails with the error attributed to that user file;
and a user file with a dangling reference fails with the unwrapped
`no such Type or Enum` error. -/
theorem c6_well_known_witness :
    (∃ root, parseProtoFiles
        [⟨"svc.proto", ["pkg.Svc"], ["google.protobuf.Any"], true⟩] =
        Except.ok root ∧
      "google.protobuf.Timestamp" ∈ root) ∧
    (∃ e, parseProtoFiles [⟨"bad.proto", [], [], false⟩] = Except.error e ∧
      ((∃ f ∈ [(⟨"bad.proto", [], [], false⟩ : MProtoFile)],
          ∃ msg, e = userParseError f.filename msg) ∨
       (∃ f ∈ [(⟨"bad.proto", [], [], false⟩ : MProtoFile)],
          ∃ r ∈ f.refs, e = noSuchTypeError r))) ∧
    parseProtoFiles [⟨"dangling.proto", ["pkg.D"], ["pkg.Missing"], true⟩] =
      Except.error (noSuchTypeError "pkg.Missing") :=
  ⟨⟨wellKnownTypeNames ++ ["pkg.Svc"], rfl,
      c6_well_known_types_available.1
        [⟨"svc.proto", ["pkg.Svc"], ["google.protobuf.Any"], true⟩]
        (wellKnownTypeNames ++ ["pkg.Svc"]) rfl
        "google.protobuf.Timestamp" (by decide)⟩,
   ⟨userParseError "bad.proto" "parse error", rfl,
      c6_well_known_types_available.2 getWellKnownTypes
        [⟨"bad.proto", [], [], false⟩]
        (userParseError "bad.proto" "parse error") rfl⟩,
   rfl⟩

theorem jsTruthy_str_of_ne (u : String) (h : u ≠ "") :
    jsTruthy (Json.str u) = true := by
  simp [jsTruthy, h]

/-- Claim C2: decoding an Any wire value — an object carrying a `type_url`
field and a payload bytes field — whose type name (the substring after the
last `/`) resolves neither bare nor dot-prefixed never throws and returns
`{"@type": typeUrl, value: base64(payload)}` instead of failing the whole
response; the response walker dispatches such a node to exactly this
result. -/
theorem c2_decode_unresolvable_degrades (root : SchemaRoot)
    (fields : List (String × Json)) (u : String) (bs : List Nat) (fuel : Nat)
    (h1 : List.lookup "type_url" fields = some (Json.str u))
    (h2 : u ≠ "")
    (h3 : lookupAnyType root (afterLastSlash u) = none)
    (h4 : List.lookup "value" fields = some (Json.bytes bs)) :
    decodeAnyValue fields root =
      Except.ok (Json.obj [("@type", Json.str u), ("value", Json.str (base64 bs))]) ∧
    processResponseForAny root (fuel + 1) (Json.obj fields) =
      Except.ok (Json.obj [("@type", Json.str u), ("value", Json.str (base64 bs))]) := by
  have hdec : decodeAnyValue fields root =
      Except.ok (Json.obj [("@type", Json.str u), ("value", Json.str (base64 bs))]) := by
    unfold decodeAnyValue
    rw [h1]
    simp only [jsTruthy_str_of_ne u h2, if_true, h3, h4, anyFallback, jsTruthy,
      b64ValueOf]
    simp [h2]
  refine ⟨hdec, ?_⟩
  show processResponseForAny root (Nat.succ fuel) (Json.obj fields) = _
  unfold processResponseForAny
  simp only [h1, h4, Option.isSome_some, and_self, if_true, hdec]

/-- Witness for C2: an unresolvable `x/pkg.Missing` with payload bytes
`[1, 2, 3]` degrades to the base64 form `AQID`. -/
theorem c2_decode_unresolvable_witness :
    List.lookup "type_url" [("type_url", Json.str "x/pkg.Missing"),
        ("value", Json.bytes [1, 2, 3])] = some (Json.str "x/pkg.Missing") ∧
    lookupAnyType [] (afterLastSlash "x/pkg.Missing") = none ∧
    decodeAnyValue [("type_url", Json.str "x/pkg.Missing"),
        ("value", Json.bytes [1, 2, 3])] [] =
      Except.ok (Json.obj [("@type", Json.str "x/pkg.Missing"),
        ("value", Json.str "AQID")]) :=
  ⟨rfl, rfl,
    ((c2_decode_unresolvable_degrades [] [("type_url", Json.str "x/pkg.Missing"),
        ("value", Json.bytes [1, 2, 3])] "x/pkg.Missing" [1, 2, 3] 0
      rfl (by decide) rfl rfl).1).trans (by rfl)⟩

/-- Claim C3: encoding a JSON object tagged `'@type'` whose named type
resolves neither bare nor dot-prefixed always fails the whole request with
a descriptive error naming the type; the request walker propagates exactly
that error instead of dropping or degrading the tagged payload. -/
theorem c3_encode_unresolvable_fails (root : SchemaRoot)
    (fields : List (String × Json)) (u : String) (fuel : Nat)
    (h1 : List.lookup "@type" fields = some (Json.str u))
    (h2 : u ≠ "")
    (h3 : lookupAnyType root (afterLastSlash u) = none) :
    encodeAnyValue fields root =
      Except.error ("Type not found: " ++ afterLastSlash u) ∧
    processRequestForAny root (fuel + 1) (Json.obj fields) =
      Except.error ("Type not found: " ++ afterLastSlash u) := by
  have henc : encodeAnyValue fields root =
      Except.error ("Type not found: " ++ afterLastSlash u) := by
    unfold encodeAnyValue
    rw [h1]
    simp only [jsTruthy_str_of_ne u h2, if_true, h3]
  refine ⟨henc, ?_⟩
  show processRequestForAny root (Nat.succ fuel) (Json.obj fields) = _
  unfold processRequestForAny
  simp only [h1, Option.isSome_some, if_true, henc]

/-- Witness for C3: encoding `(at)type = a/pkg.Nope` over an empty schema
graph fails with the descriptive error, and the request walker fails the
whole request with it. -/
theorem c3_encode_unresolvable_witness :
    List.lookup "@type" [("@type", Json.str "a/pkg.Nope"), ("v", Json.num 1)] =
      some (Json.str "a/pkg.Nope") ∧
    lookupAnyType [] (afterLastSlash "a/pkg.Nope") = none ∧
    encodeAnyValue [("@type", Json.str "a/pkg.Nope"), ("v", Json.num 1)] [] =
      Except.error "Type not found: pkg.Nope" ∧
    processRequestForAny [] 1 (Json.obj [("@type", Json.str "a/pkg.Nope"),
        ("v", Json.num 1)]) = Except.error "Type not found: pkg.Nope" :=
  ⟨rfl, rfl,
    ((c3_encode_unresolvable_fails [] [("@type", Json.str "a/pkg.Nope"),
        ("v", Json.num 1)] "a/pkg.Nope" 0 rfl (by decide) rfl).1).trans (by rfl),
    ((c3_encode_unresolvable_fails [] [("@type", Json.str "a/pkg.Nope"),
        ("v", Json.num 1)] "a/pkg.Nope" 0 rfl (by decide) rfl).2).trans (by rfl)⟩

theorem allWs_of_trimChars_nil (l : List Char) (h : trimChars l = []) :
    ∀ c ∈ l, isJsWs c := by
  unfold trimChars at h
  rw [List.reverse_eq_nil_iff] at h
  rw [List.dropWhile_eq_nil_iff] at h
  intro c hc
  rw [← List.takeWhile_append_dropWhile (p := isJsWs) (l := l)] at hc
  rcases List.mem_append.mp hc with h1 | h2
  · exact List.mem_takeWhile_imp h1
  · exact h c (List.mem_reverse.mpr h2)

theorem matchMarkerAt_none_of_ws (s : List Char) (hws : ∀ c ∈ s, isJsWs c) :
    matchMarkerAt s = none := by
  match s with
  | [] => rfl
  | [c] => rfl
  | c1 :: c2 :: r =>
    have hc1 : ¬(c1 = '[' ∧ c2 = '[') := by
      rintro ⟨hc, -⟩
      have hm := hws c1 (List.mem_cons_self c1 (c2 :: r))
      rw [hc] at hm
      exact absurd hm (by decide)
    unfold matchMarkerAt
    simp [hc1]

theorem scanMarkers_nil_of_ws :
    ∀ (fuel : Nat) (s : List Char) (pos : Nat) (atLS : Bool),
      (∀ c ∈ s, isJsWs c) → scanMarkers fuel s pos atLS = [] := by
  intro fuel
  induction fuel with
  | zero => intro s pos atLS _; rfl
  | succ fuel ih =>
    intro s pos atLS hws
    match s with
    | [] => rfl
    | c :: rest =>
      have hrest : ∀ x ∈ rest, isJsWs x :=
        fun x hx => hws x (List.mem_cons_of_mem c hx)
      have hm := matchMarkerAt_none_of_ws (c :: rest) hws
      cases atLS with
      | false => exact ih rest (pos + 1) (isLineTerm c) hrest
      | true =>
        simp only [scanMarkers, hm]
        exact ih rest (pos + 1) (isLineTerm c) hrest

theorem findMarkers_nil_of_trim_empty (content : String)
    (h : jsTrim content = "") : findMarkers content = [] := by
  have hl : trimChars content.data = [] := congrArg String.data h
  exact scanMarkers_nil_of_ws _ content.data 0 true
    (allWs_of_trimChars_nil content.data hl)

theorem buildFiles_eq_zip (content : String) :
    ∀ ms : List MarkerMatch,
      buildFiles content ms =
        (ms.zip ((ms.drop 1).map MarkerMatch.index ++ [content.data.length])).filterMap
          (fun p =>
            let fileContent := jsTrim (sliceStr content (p.1.index + p.1.length) p.2)
            if fileContent = "" then none
            else some { filename := jsTrim p.1.filename, content := fileContent }) := by
  intro ms
  induction ms with
  | nil => rfl
  | cons m rest ih =>
    cases rest with
    | nil =>
      simp only [buildFiles, List.drop_succ_cons, List.drop_nil, List.map_nil,
        List.nil_append, List.zip_cons_cons, List.zip_nil_right, List.filterMap_cons,
        List.filterMap_nil]
      split <;> rfl
    | cons m2 rest2 =>
      simp only [buildFiles, List.drop_succ_cons, List.drop_zero, List.map_cons,
        List.cons_append, List.zip_cons_cons, List.filterMap_cons] at ih ⊢
      rw [ih]
      split <;> rfl

/-- Claim C5: on input containing boundary-marker lines the splitter emits,
in marker order, one file per marker whose content is the trimmed text
between that marker and the next one (or the end of the input), named by the
trimmed filename captured by the marker; text before the first marker is
discarded and files whose trimmed content is empty are dropped. -/
theorem c5_marker_split_files (content : String)
    (h : findMarkers content ≠ []) :
    parseDelimitedProtoContent content =
      ((findMarkers content).zip
          (((findMarkers content).drop 1).map MarkerMatch.index ++
            [content.data.length])).filterMap
        (fun p =>
          let fileContent := jsTrim (sliceStr content (p.1.index + p.1.length) p.2)
          if fileContent = "" then none
          else some { filename := jsTrim p.1.filename, content := fileContent }) := by
  have htrim : jsTrim content ≠ "" := by
    intro he
    exact h (findMarkers_nil_of_trim_empty content he)
  unfold parseDelimitedProtoContent
  rw [if_neg htrim]
  simp only [List.isEmpty_eq_true]
  rw [if_neg h]
  exact buildFiles_eq_zip content (findMarkers content)

/-- Witness for C5 at the spec's example input, which splits into `a.proto`
holding `X` and `b.proto` holding `Y`, in that order. -/
theorem c5_marker_split_witness :
    findMarkers "[[=== a.proto ===]]\nX\n[[== b.proto ==]]\nY" ≠ [] ∧
    parseDelimitedProtoContent "[[=== a.proto ===]]\nX\n[[== b.proto ==]]\nY" =
      [{ filename := "a.proto", content := "X" },
       { filename := "b.proto", content := "Y" }] :=
  ⟨by decide,
    (c5_marker_split_files "[[=== a.proto ===]]\nX\n[[== b.proto ==]]\nY"
      (by decide)).trans (by decide)⟩

theorem mapM_eq_some_map {α β : Type} (g : α → Option β) (d : α → β) :
    ∀ l : List α, (∀ a ∈ l, g a = some (d a)) → l.mapM g = some (l.map d) := by
  intro l
  induction l with
  | nil => intro _; rfl
  | cons a t ih =>
    intro h
    rw [List.mapM_cons, h a (List.mem_cons_self a t),
      ih (fun x hx => h x (List.mem_cons_of_mem a hx))]
    rfl

theorem lookup_eq_none_of_keys {β : Type} (k : String) :
    ∀ l : List (String × β), (∀ p ∈ l, p.1 ≠ k) → List.lookup k l = none := by
  intro l
  induction l with
  | nil => intro _; rfl
  | cons a t ih =>
    intro h
    obtain ⟨a1, a2⟩ := a
    have ha : a1 ≠ k := h (a1, a2) (List.mem_cons_self _ t)
    have hb : (k == a1) = false := beq_eq_false_iff_ne.mpr (fun he => ha he.symm)
    simp only [List.lookup, hb]
    exact ih (fun p hp => h p (List.mem_cons_of_mem _ hp))

theorem storedFields_key_mem (mf : List (String × Json)) (fs : List FieldDef) :
    ∀ p ∈ fs.filterMap (fun f0 =>
        match List.lookup f0.name mf with
        | some v => if isNullJson v then none else some (f0.name, wireVal f0.kind v)
        | none => none),
      p.1 ∈ fs.map FieldDef.name := by
  intro p hp
  rw [List.mem_filterMap] at hp
  obtain ⟨f0, hf0, hg⟩ := hp
  cases hl : List.lookup f0.name mf with
  | none => rw [hl] at hg; cases hg
  | some v =>
    rw [hl] at hg
    dsimp only at hg
    by_cases hn : isNullJson v = true
    · rw [if_pos hn] at hg; cases hg
    · rw [if_neg hn] at hg
      cases hg
      exact List.mem_map_of_mem FieldDef.name hf0

theorem lookup_storedFields (mf : List (String × Json)) :
    ∀ fs : List FieldDef, (fs.map FieldDef.name).Nodup → ∀ f ∈ fs,
      List.lookup f.name (fs.filterMap (fun f0 =>
        match List.lookup f0.name mf with
        | some v => if isNullJson v then none else some (f0.name, wireVal f0.kind v)
        | none => none)) =
      match List.lookup f.name mf with
      | some v => if isNullJson v then none else some (wireVal f.kind v)
      | none => none := by
  intro fs
  induction fs with
  | nil => intro _ f hf; cases hf
  | cons f0 rest ih =>
    intro hnd f hf
    rw [List.map_cons, List.nodup_cons] at hnd
    obtain ⟨hnd0, hndr⟩ := hnd
    rcases List.mem_cons.mp hf with rfl | hfr
    · simp only [List.filterMap_cons]
      cases hl : List.lookup f.name mf with
      | none =>
        simp only [hl]
        exact lookup_eq_none_of_keys f.name _
          (fun p hp he => hnd0 (he ▸ storedFields_key_mem mf rest p hp))
      | some v =>
        simp only [hl]
        by_cases hn : isNullJson v = true
        · rw [if_pos hn, if_pos hn]
          exact lookup_eq_none_of_keys f.name _
            (fun p hp he => hnd0 (he ▸ storedFields_key_mem mf rest p hp))
        · rw [if_neg hn, if_neg hn]
          simp [List.lookup]
    · have hne : f.name ≠ f0.name :=
        fun he => hnd0 (he ▸ List.mem_map_of_mem FieldDef.name hfr)
      simp only [List.filterMap_cons]
      cases hl0 : List.lookup f0.name mf with
      | none => exact ih hndr f hfr
      | some v0 =>
        dsimp only
        by_cases hn0 : isNullJson v0 = true
        · rw [if_pos hn0]
          exact ih hndr f hfr
        · rw [if_neg hn0]
          have hb : (f.name == f0.name) = false := beq_eq_false_iff_ne.mpr hne
          simp only [List.lookup, hb]
          exact ih hndr f hfr

theorem renderVal_isSome_of_kindMatches (k : FieldKind) (v : Json)
    (h : kindMatches k v = true) : (renderVal k v).isSome := by
  cases k <;> cases v <;> simp_all [kindMatches, renderVal]

theorem verify_none_field (ty : MessageType) (mf : List (String × Json))
    (h : verifyMsg ty mf = none) (f : FieldDef) (hf : f ∈ ty.fields) (v : Json)
    (hl : List.lookup f.name mf = some v) (hnn : isNullJson v = false) :
    kindMatches f.kind v = true := by
  unfold verifyMsg at h
  rw [List.findSome?_eq_none_iff] at h
  have hfe := h f hf
  rw [hl] at hfe
  simp only [hnn, Bool.false_eq_true, if_false] at hfe
  by_contra hk
  rw [Bool.not_eq_true] at hk
  rw [hk] at hfe
  simp at hfe

theorem kindMatches_wireVal (k : FieldKind) (v : Json)
    (h : kindMatches k v = true) : kindMatches k (wireVal k v) = true := by
  cases k <;> cases v <;> simp_all [kindMatches, wireVal]

theorem decodeFieldEntry_roundtrip (ty : MessageType) (mf : List (String × Json))
    (hnd : (ty.fields.map FieldDef.name).Nodup) (hver : verifyMsg ty mf = none) :
    ∀ f ∈ ty.fields,
      decodeFieldEntry (storedFields ty mf) f =
        some (f.name,
          match List.lookup f.name mf with
          | some v =>
            if isNullJson v then defaultVal f.kind
            else (renderVal f.kind (wireVal f.kind v)).getD (defaultVal f.kind)
          | none => defaultVal f.kind) := by
  intro f hf
  unfold decodeFieldEntry
  unfold storedFields
  rw [lookup_storedFields mf ty.fields hnd f hf]
  cases hl : List.lookup f.name mf with
  | none => rfl
  | some v =>
    dsimp only
    by_cases hn : isNullJson v = true
    · rw [if_pos hn, if_pos hn]
    · rw [if_neg hn, if_neg hn]
      have hk := verify_none_field ty mf hver f hf v hl
        (by rw [Bool.not_eq_true] at hn; exact hn)
      have hs := renderVal_isSome_of_kindMatches f.kind (wireVal f.kind v)
        (kindMatches_wireVal f.kind v hk)
      obtain ⟨rv, hrv⟩ := Option.isSome_iff_exists.mp hs
      simp [hrv]

/-- Claim C1 (amended): for a JSON object tagged `'@type'` whose named type
resolves, decoding the encoded Any wire value yields an object holding the
original type URL under `'@type'` plus one field per field declared by the
resolved type, in declaration order: the object's own value for that field
when present and non-null — wrapped two's-complement to the field's integer
width by the wire encoding, with 64-bit values re-rendered as decimal
strings by the `longs: String` option — and the field's protobuf default
rendering otherwise; fields of the object that the type does not declare
are dropped.  (When the object's non-`@type` keys are exactly the declared
fields, with shape-canonical in-range values of non-64-bit kinds, this is
the original object plus the `'@type'` key, as the claim states.) -/
theorem c1_any_roundtrip (root : SchemaRoot) (fields : List (String × Json))
    (u : String) (ty : MessageType)
    (h1 : List.lookup "@type" fields = some (Json.str u))
    (h2 : u ≠ "")
    (h3 : lookupAnyType root (afterLastSlash u) = some ty)
    (h4 : verifyMsg ty (fields.filter (fun p => p.1 ≠ "@type")) = none)
    (h5 : (ty.fields.map FieldDef.name).Nodup) :
    anyRoundTripResult fields root =
      Except.ok (Json.obj (("@type", Json.str u) ::
        ty.fields.map (fun f =>
          (f.name,
            match List.lookup f.name (fields.filter (fun p => p.1 ≠ "@type")) with
            | some v =>
              if isNullJson v then defaultVal f.kind
              else (renderVal f.kind (wireVal f.kind v)).getD (defaultVal f.kind)
            | none => defaultVal f.kind)))) := by
  have henc : encodeAnyValue fields root = Except.ok (Json.obj
      [("type_url", Json.str u),
       ("value", Json.pbmsg (afterLastSlash u)
         (storedFields ty (fields.filter (fun p => p.1 ≠ "@type"))))]) := by
    unfold encodeAnyValue
    rw [h1]
    simp only [jsTruthy_str_of_ne u h2, if_true, h3, h4]
  have hfields : ty.fields.mapM
      (decodeFieldEntry (storedFields ty (fields.filter (fun p => p.1 ≠ "@type")))) =
      some (ty.fields.map (fun f =>
        (f.name,
          match List.lookup f.name (fields.filter (fun p => p.1 ≠ "@type")) with
          | some v =>
            if isNullJson v then defaultVal f.kind
            else (renderVal f.kind (wireVal f.kind v)).getD (defaultVal f.kind)
          | none => defaultVal f.kind))) :=
    mapM_eq_some_map _ _ ty.fields
      (decodeFieldEntry_roundtrip ty (fields.filter (fun p => p.1 ≠ "@type")) h5 h4)
  unfold anyRoundTripResult
  rw [henc]
  show decodeAnyValue [("type_url", Json.str u),
      ("value", Json.pbmsg (afterLastSlash u)
        (storedFields ty (fields.filter (fun p => p.1 ≠ "@type"))))] root = _
  unfold decodeAnyValue
  have hl1 : List.lookup "type_url" [("type_url", Json.str u),
      ("value", Json.pbmsg (afterLastSlash u)
        (storedFields ty (fields.filter (fun p => p.1 ≠ "@type"))))] =
      some (Json.str u) := rfl
  have hl2 : List.lookup "value" [("type_url", Json.str u),
      ("value", Json.pbmsg (afterLastSlash u)
        (storedFields ty (fields.filter (fun p => p.1 ≠ "@type"))))] =
      some (Json.pbmsg (afterLastSlash u)
        (storedFields ty (fields.filter (fun p => p.1 ≠ "@type")))) := rfl
  rw [hl1]
  simp only [jsTruthy_str_of_ne u h2, if_true, h3, hl2, jsTruthy, decodeMsgFields,
    hfields]
  simp [h2]

/-- Counterexample to claim C1 as stated: over a schema graph defining
`pkg.T` with one int32 field `a`, the tagged object holding only the
`'@type'` key round-trips to an object that additionally carries `a = 0`
(the `defaults: true` rendering), so the result is not the original fields
plus `'@type'`. -/
theorem c1_any_roundtrip_cex :
    anyRoundTripResult [("@type", Json.str "t/pkg.T")]
        [("pkg.T", { fields := [{ name := "a", kind := FieldKind.i32 }] })] =
      Except.ok (Json.obj [("@type", Json.str "t/pkg.T"), ("a", Json.num 0)]) ∧
    ¬ (anyRoundTripResult [("@type", Json.str "t/pkg.T")]
        [("pkg.T", { fields := [{ name := "a", kind := FieldKind.i32 }] })] =
      Except.ok (Json.obj [("@type", Json.str "t/pkg.T")])) :=
  ⟨rfl, fun h => absurd (congrArg okObjFieldCount h) (by decide)⟩

/-- Witness for C1: at an object whose fields are exactly the declared
fields of the resolved type with in-range values, the round trip is the
original fields plus the `'@type'` key; and an out-of-range int32 value
wraps on the wire, `a = 2147483648` coming back as `a = -2147483648`. -/
theorem c1_any_roundtrip_witness :
    anyRoundTripResult
        [("@type", Json.str "type.googleapis.com/pkg.T"),
         ("a", Json.num 5), ("s", Json.str "hi")]
        [("pkg.T", { fields := [{ name := "a", kind := FieldKind.i32 },
                                { name := "s", kind := FieldKind.strT }] })] =
      Except.ok (Json.obj [("@type", Json.str "type.googleapis.com/pkg.T"),
        ("a", Json.num 5), ("s", Json.str "hi")]) ∧
    anyRoundTripResult
        [("@type", Json.str "t/pkg.W"), ("a", Json.num 2147483648)]
        [("pkg.W", { fields := [{ name := "a", kind := FieldKind.i32 }] })] =
      Except.ok (Json.obj [("@type", Json.str "t/pkg.W"),
        ("a", Json.num (-2147483648))]) :=
  ⟨(c1_any_roundtrip
      [("pkg.T", { fields := [{ name := "a", kind := FieldKind.i32 },
                              { name := "s", kind := FieldKind.strT }] })]
      [("@type", Json.str "type.googleapis.com/pkg.T"),
       ("a", Json.num 5), ("s", Json.str "hi")]
      "type.googleapis.com/pkg.T"
      { fields := [{ name := "a", kind := FieldKind.i32 },
                   { name := "s", kind := FieldKind.strT }] }
      rfl (by decide) rfl rfl (by decide)).trans (by rfl),
   (c1_any_roundtrip
      [("pkg.W", { fields := [{ name := "a", kind := FieldKind.i32 }] })]
      [("@type", Json.str "t/pkg.W"), ("a", Json.num 2147483648)]
      "t/pkg.W"
      { fields := [{ name := "a", kind := FieldKind.i32 }] }
      rfl (by decide) rfl rfl (by decide)).trans (by rfl)⟩
